import Mathlib

/-!
Formal model of the suggestion/editor core of an AI writing assistant.

The source is a TypeScript editor component.  Strings are modelled as
`List Char` (one element per UTF-16 code unit of the JavaScript string;
code points beyond the BMP are idealised as single units), character
positions as `Int` (JavaScript numbers holding integer values), and the
relevant JavaScript string primitives (substring, indexOf, includes,
split on whitespace runs, trim, toLowerCase) are embedded as executable
functions below.  All definitions are translated from the source file of
the editor component; source line numbers are given next to each
definition.
-/

/-! ## JavaScript string primitives -/

/-- Whitespace test used by the regular expression class backslash-s
(space, tab, newline, carriage return, vertical tab, form feed; the
rarer Unicode space characters are not needed by any claim). -/
def isJsWhitespace (c : Char) : Bool :=
  c == ' ' || c == '\t' || c == '\n' || c == '\r' || c == Char.ofNat 11 || c == Char.ofNat 12

/-- Clamp an integer index into the interval from 0 to the length of the
string, as the ECMAScript substring conversion does. -/
def jsClamp (x : Int) (n : Nat) : Nat := (max 0 (min x (n : Int))).toNat

/-- Model of the JavaScript substring method: both arguments are clamped
into the string and swapped when the first exceeds the second. -/
def jsSubstring (s : List Char) (a b : Int) : List Char :=
  let ia := jsClamp a s.length
  let ib := jsClamp b s.length
  (s.drop (min ia ib)).take (max ia ib - min ia ib)

/-- Model of the JavaScript trim method (strip leading and trailing
whitespace). -/
def jsTrim (s : List Char) : List Char :=
  ((s.dropWhile isJsWhitespace).reverse.dropWhile isJsWhitespace).reverse

/-- Helper for splitting on runs of whitespace.  The accumulator holds
the current token in reverse; the flag records whether the previous
character was whitespace (so that a run emits only one boundary). -/
def jsSplitWsAux : List Char → List Char → Bool → List (List Char)
  | [], cur, _ => [cur.reverse]
  | c :: rest, cur, prevWs =>
    if isJsWhitespace c then
      if prevWs then jsSplitWsAux rest [] true
      else cur.reverse :: jsSplitWsAux rest [] true
    else jsSplitWsAux rest (c :: cur) false

/-- Model of splitting a string with the regular expression of one or
more whitespace characters: maximal whitespace runs separate the pieces,
and leading or trailing runs contribute empty pieces, exactly as in
JavaScript. -/
def jsSplitWs (s : List Char) : List (List Char) := jsSplitWsAux s [] false

/-- Join a list of words with single spaces (the JavaScript join method
with a one-space separator). -/
def jsJoinSpace (ws : List (List Char)) : List Char := List.intercalate [' '] ws

/-- All indices at which pat occurs in text, in increasing order.  This
is the set of positions the source collects by calling indexOf in a loop
that advances the search position by one after every hit. -/
def jsOccurrences (text pat : List Char) : List Nat :=
  (List.range (text.length + 1)).filter (fun i => pat.isPrefixOf (text.drop i))

/-- Model of the JavaScript includes method. -/
def jsIncludes (text pat : List Char) : Bool := !(jsOccurrences text pat).isEmpty

/-- Truthiness of an optional string parameter: undefined and the empty
string are falsy, every other string is truthy. -/
def isTruthyStr : Option (List Char) → Bool
  | none => false
  | some s => !s.isEmpty

/-! ## Data model (source lines 21 to 34)

The fields of the Suggestion record that the modelled algorithms read
are kept; the advisory metadata fields (kind, explanation, confidence)
are not consulted by any modelled code path and are omitted.  The second
span component is called stop because end is a reserved word in Lean. -/

structure Span where
  start : Int
  stop : Int
deriving DecidableEq

structure Suggestion where
  id : List Char
  position : Span
  original : List Char
  suggested : List Char
  contextBefore : Option (List Char) := none
  contextAfter : Option (List Char) := none
deriving DecidableEq

/-- The span invariant of the specification: the current document text
at the span of the suggestion is exactly its original text. -/
def spanInvariant (text : List Char) (s : Suggestion) : Prop :=
  jsSubstring text s.position.start s.position.stop = s.original

instance (text : List Char) (s : Suggestion) : Decidable (spanInvariant text s) :=
  inferInstanceAs (Decidable (_ = _))

/-! ## Suggestion merging (source lines 752 to 871) -/

inductive SuggestionSource
  | openai
  | typo
  | other
deriving DecidableEq

/-- Helper getSuggestionSource (lines 760 to 764): the id prefix encodes
the producer of the suggestion. -/
def getSuggestionSource (s : Suggestion) : SuggestionSource :=
  if ("openai-".toList).isPrefixOf s.id then .openai
  else if ("typo-".toList).isPrefixOf s.id then .typo
  else .other

/-- Overlap test of the merge loop (line 797): newStart < existingEnd
and newEnd > existingStart. -/
def spansOverlap (n e : Span) : Bool :=
  decide (n.start < e.stop) && decide (n.stop > e.start)

/-- The shouldReplace decision chain of the merge loop (lines 802 to
825): the incoming suggestion displaces the overlapped one in every
pairing except an incoming dictionary suggestion against an existing
semantic one. -/
def shouldReplace (newSource existingSource : SuggestionSource) : Bool :=
  match newSource, existingSource with
  | .openai, .typo => true
  | .openai, .openai => true
  | .typo, .openai => false
  | .typo, .typo => true
  | _, _ => true

/-- One iteration of the merge loop (lines 784 to 859): remove every
overlapped suggestion the incoming one displaces, then append the
incoming suggestion unless it displaced nothing and some remaining
overlapping suggestion is semantic while the incoming one is from the
dictionary (the add guard of lines 840 to 853). -/
def mergeStep (merged : List Suggestion) (n : Suggestion) : List Suggestion :=
  let newSource := getSuggestionSource n
  let removePred := fun e =>
    spansOverlap n.position e.position && shouldReplace newSource (getSuggestionSource e)
  let removedAny := merged.any removePred
  let afterRemoval := merged.filter (fun e => !(removePred e))
  let blocked := afterRemoval.any (fun e =>
    spansOverlap n.position e.position &&
      decide (newSource = .typo) && decide (getSuggestionSource e = .openai))
  if removedAny || !blocked then afterRemoval ++ [n] else afterRemoval

/-- The forEach loop over the incoming suggestions (line 784). -/
def mergeLoop : List Suggestion → List Suggestion → List Suggestion
  | merged, [] => merged
  | merged, n :: rest => mergeLoop (mergeStep merged n) rest

/-- Stable insertion used to model the JavaScript stable sort: x is
placed before the first element it must strictly precede, so equal
elements keep their original relative order. -/
def stableInsertBy {α : Type} (before : α → α → Bool) (x : α) : List α → List α
  | [] => [x]
  | y :: ys => if before x y then x :: y :: ys else y :: stableInsertBy before x ys

/-- Stable sort by repeated insertion, processing the list left to
right; this reproduces the output of the stable JavaScript array sort
for a consistent comparator. -/
def stableSortBy {α : Type} (before : α → α → Bool) (l : List α) : List α :=
  l.foldl (fun acc x => stableInsertBy before x acc) []

/-- mergeSuggestionsIntelligently (lines 752 to 871): revalidate the
existing suggestions against the current text, fold the incoming
suggestions through the merge loop, and sort the result by span start
(comparator of line 862). -/
def mergeSuggestionsIntelligently (existingSuggestions newSuggestions : List Suggestion)
    (currentText : List Char) : List Suggestion :=
  let validExistingSuggestions := existingSuggestions.filter (fun s =>
    jsSubstring currentText s.position.start s.position.stop == s.original)
  stableSortBy (fun a b => decide (a.position.start < b.position.start))
    (mergeLoop validExistingSuggestions newSuggestions)

/-! ## Text differ (source lines 568 to 580) -/

/-- Index of the first disagreement of the two texts, scanning over the
common length (the loop of lines 571 to 576 with its break). -/
def firstDiffIndex (oldValue newValue : List Char) : Option Nat :=
  (List.range (min oldValue.length newValue.length)).find? (fun i => oldValue[i]? != newValue[i]?)

/-- The changeStart computation of handleContentEditable (lines 568 to
580): the loop leaves changeStart at the first disagreement index (or at
0 when none is found over the common length), then the fallback sets
changeStart to the common length whenever changeStart is still 0 and the
texts differ. -/
def computeChangeStart (oldValue newValue : List Char) : Nat :=
  let minLength := min oldValue.length newValue.length
  let changeStart := (firstDiffIndex oldValue newValue).getD 0
  if changeStart = 0 ∧ oldValue ≠ newValue then minLength else changeStart

/-! ## Position locator (source lines 1331 to 1516) -/

structure LocateResult where
  start : Int
  stop : Int
  found : Bool
deriving DecidableEq

structure ContextMatch where
  start : Int
  stop : Int
  score : Int
deriving DecidableEq

/-- findWithContext (lines 1405 to 1463): score every occurrence of the
search text, filtering out occurrences whose active context checks fail;
a surviving occurrence scores 1 plus 2 for each active context string
(an active check that fails removes the occurrence instead).  The result
is sorted by score, descending and stable. -/
def findWithContext (text searchText : List Char)
    (contextBefore contextAfter : Option (List Char)) : List ContextMatch :=
  let checkBefore := isTruthyStr contextBefore && isTruthyStr (contextBefore.map jsTrim)
  let checkAfter := isTruthyStr contextAfter && isTruthyStr (contextAfter.map jsTrim)
  let cb := contextBefore.getD []
  let ca := contextAfter.getD []
  let occMatches := (jsOccurrences text searchText).filterMap (fun (i : Nat) =>
    let beforeOk := !checkBefore ||
      jsIncludes (jsSubstring text (max 0 ((i : Int) - cb.length - 10)) (i : Int)) cb
    let afterOk := !checkAfter ||
      jsIncludes (jsSubstring text ((i : Int) + searchText.length)
        (min (text.length : Int) ((i : Int) + searchText.length + ca.length + 10))) ca
    if beforeOk && afterOk then
      some ⟨(i : Int), (i : Int) + searchText.length,
        1 + (if checkBefore then 2 else 0) + (if checkAfter then 2 else 0)⟩
    else none)
  stableSortBy (fun a b => decide (b.score < a.score)) occMatches

/-- A fuzzy candidate.  The source stores the confidence as the floating
point quotient matchedWords / searchWords.length; the model stores the
two integers so that every later comparison can be carried out exactly
(see fuzzyScore). -/
structure FuzzyMatch where
  start : Int
  stop : Int
  matched : Nat
  total : Nat
deriving DecidableEq

/-- Comparator key of the fuzzy sort (lines 1510 to 1514).  The source
ranks by confidence minus distance from the hint divided by 1000; all
candidates of one call share the same denominator total, so scaling that
score by the positive constant 1000 times total turns it into the exact
integer 1000 times matched minus total times distance, preserving the
ordering. -/
def fuzzyScore (hintPos : Int) (m : FuzzyMatch) : Int :=
  1000 * (m.matched : Int) - (m.total : Int) * (((m.start - hintPos).natAbs : Int))

/-- Search words of findFuzzyMatches (line 1467): lowercase the search
text, split on whitespace, keep words longer than two characters. -/
def fuzzySearchWords (searchText : List Char) : List (List Char) :=
  (jsSplitWs (searchText.map Char.toLower)).filter (fun w => 2 < w.length)

/-- Window start of findFuzzyMatches (lines 1472 to 1473).  The source
computes hintPos minus windowSize / 2 in floating point; when windowSize
is odd that value is half-integral and the string indexing that consumes
it truncates, so the model floors it, which for an integer hint is
hintPos minus the rounded-up half of windowSize. -/
def fuzzyWindowStart (text : List Char) (hintPos : Int) : Int :=
  max 0 (hintPos - (((min 500 text.length + 1) / 2 : Nat) : Int))

/-- Window end of findFuzzyMatches (line 1474), floored in the same way
(for an integer hint the floor of hintPos plus half the window size is
hintPos plus the rounded-down half). -/
def fuzzyWindowEnd (text : List Char) (hintPos : Int) : Int :=
  min (text.length : Int) (hintPos + (((min 500 text.length) / 2 : Nat) : Int))

/-- The lowercased search window of findFuzzyMatches (line 1475). -/
def fuzzySearchWindow (text : List Char) (hintPos : Int) : List Char :=
  (jsSubstring text (fuzzyWindowStart text hintPos) (fuzzyWindowEnd text hintPos)).map Char.toLower

/-- One iteration of the candidate loop of findFuzzyMatches (lines 1480
to 1506): take a slice of twice the search word count starting at word
i, count how many search words the slice contains, and when at least 60
percent match (matched / total at least 0.6, exactly 3 times total at
most 5 times matched) locate the slice in the window and record the
candidate; the end offset is the start plus 1.5 times the search text
length (floored, as the value is consumed by string indexing), clamped
to the text length. -/
def fuzzyCandidate (text searchText : List Char) (hintPos : Int) (i : Nat) : Option FuzzyMatch :=
  let searchWords := fuzzySearchWords searchText
  let searchWindow := fuzzySearchWindow text hintPos
  let words := jsSplitWs searchWindow
  let windowSlice := jsJoinSpace ((words.drop i).take (searchWords.length * 2))
  let matchedWords := (searchWords.filter (fun w => jsIncludes windowSlice w)).length
  if 3 * searchWords.length ≤ 5 * matchedWords then
    match (jsOccurrences searchWindow windowSlice).head? with
    | some sliceStart =>
      some ⟨fuzzyWindowStart text hintPos + sliceStart,
        min (text.length : Int)
          (fuzzyWindowStart text hintPos + sliceStart + (3 * (searchText.length : Int)) / 2),
        matchedWords, searchWords.length⟩
    | none => none
  else none

/-- findFuzzyMatches (lines 1465 to 1516): no candidates when no search
word survives the length filter; otherwise collect the candidates of the
sliding loop, sort them by the comparator of fuzzyScore (descending,
stable) and keep the top three. -/
def findFuzzyMatches (text searchText : List Char) (hintPos : Int) : List FuzzyMatch :=
  let searchWords := fuzzySearchWords searchText
  if searchWords.isEmpty then [] else
  let words := jsSplitWs (fuzzySearchWindow text hintPos)
  (stableSortBy (fun a b => decide (fuzzyScore hintPos b < fuzzyScore hintPos a))
    ((List.range (words.length + 1 - searchWords.length)).filterMap
      (fuzzyCandidate text searchText hintPos))).take 3

/-- Tie-break step of the closest-match reduction (lines 1385 to 1389):
keep the current candidate only when it is strictly closer to the
suggested start position. -/
def closerToHint (startPos : Int) (closest current : Span) : Span :=
  if (current.start - startPos).natAbs < (closest.start - startPos).natAbs then current else closest

/-- findExactTextPosition (lines 1331 to 1403), the position locator.
Resolution order: verify the hinted span; context-disambiguated search
when a context string is truthy; unique or closest exact match; fuzzy
fallback; otherwise the hinted span with found set to false.  On the
empty search text the source loops forever collecting occurrences, so
its behaviour is modelled only for a nonempty search text. -/
def findExactTextPosition (text searchText : List Char) (startPos endPos : Int)
    (contextBefore contextAfter : Option (List Char)) : LocateResult :=
  if 0 ≤ startPos ∧ endPos ≤ (text.length : Int) ∧ startPos < endPos ∧
      jsSubstring text startPos endPos = searchText then
    ⟨startPos, endPos, true⟩
  else
    let contextMatches :=
      if isTruthyStr contextBefore || isTruthyStr contextAfter then
        findWithContext text searchText contextBefore contextAfter
      else []
    match contextMatches with
    | m :: _ => ⟨m.start, m.stop, true⟩
    | [] =>
      let foundPositions := (jsOccurrences text searchText).map
        (fun (i : Nat) => (⟨(i : Int), (i : Int) + searchText.length⟩ : Span))
      match foundPositions with
      | [] =>
        match findFuzzyMatches text searchText startPos with
        | m :: _ => ⟨m.start, m.stop, true⟩
        | [] => ⟨startPos, endPos, false⟩
      | [p] => ⟨p.start, p.stop, true⟩
      | p :: q :: rest =>
        let closest := (q :: rest).foldl (closerToHint startPos) p
        ⟨closest.start, closest.stop, true⟩

/-! ## Suggestion repositioner (source lines 1518 to 1593) -/

/-- Phase two of updateSuggestionPositions (lines 1555 to 1590): rerun
the locator for a surviving suggestion; on success store the corrected
span (or keep the suggestion untouched when the span is unchanged), on
failure drop it. -/
def relocateSuggestion (newText : List Char) (suggestion : Suggestion) : Option Suggestion :=
  let exactPosition := findExactTextPosition newText suggestion.original
    suggestion.position.start suggestion.position.stop
    suggestion.contextBefore suggestion.contextAfter
  if exactPosition.found then
    if exactPosition.start ≠ suggestion.position.start ∨
        exactPosition.stop ≠ suggestion.position.stop then
      some { suggestion with position := ⟨exactPosition.start, exactPosition.stop⟩ }
    else some suggestion
  else none

/-- updateSuggestionPositions (lines 1518 to 1593): shift every
suggestion starting at or after the change by the length delta, drop
every suggestion whose span strictly contains the change point, keep the
rest, then reverify every survivor with the locator. -/
def updateSuggestionPositions (suggestions : List Suggestion) (oldText newText : List Char)
    (changeStart : Int) : List Suggestion :=
  if suggestions.isEmpty then suggestions else
  let lengthDifference : Int := (newText.length : Int) - (oldText.length : Int)
  let shifted := suggestions.filterMap (fun s =>
    if changeStart ≤ s.position.start then
      some { s with position := ⟨s.position.start + lengthDifference,
                                 s.position.stop + lengthDifference⟩ }
    else if changeStart < s.position.stop then none
    else some s)
  shifted.filterMap (relocateSuggestion newText)

/-! ## Section hashing and change detection (source lines 2837 to 2932) -/

/-- Digit character for base 36 (0 to 9 then a to z), as produced by the
JavaScript toString method with radix 36. -/
def base36Digit (d : Nat) : Char := Char.ofNat (if d < 10 then 48 + d else 87 + d)

/-- Fuel-based base 36 writer (structural recursion so that concrete
hashes evaluate inside the kernel); fuel of n plus one always suffices
for the value n. -/
def natToBase36Aux : Nat → Nat → List Char → List Char
  | 0, _, acc => acc
  | fuel + 1, n, acc =>
    let acc2 := base36Digit (n % 36) :: acc
    if n / 36 = 0 then acc2 else natToBase36Aux fuel (n / 36) acc2

/-- Base 36 rendering of a natural number, as the JavaScript toString
method with radix 36 renders a nonnegative integer. -/
def natToBase36 (n : Nat) : List Char := natToBase36Aux (n + 1) n []

/-- Wrap an integer into signed 32-bit range, as the JavaScript bitwise
operations do. -/
def toInt32 (n : Int) : Int := (n + 2 ^ 31) % 2 ^ 32 - 2 ^ 31

/-- simpleHash (lines 2908 to 2919): the classic shift-subtract-add
string hash over the character codes, coerced to 32 bits at every step
(the shift by five wraps, and the bitwise and with itself truncates to a
signed 32-bit integer), rendered as the base 36 form of its absolute
value; the empty string hashes to the digit zero. -/
def simpleHash (text : List Char) : List Char :=
  if text.length = 0 then ['0'] else
  natToBase36 (text.foldl
    (fun hash c => toInt32 (toInt32 (hash * 32) - hash + (c.toNat : Int))) 0).natAbs

structure TextSection where
  hash : List Char
  content : List Char
  startIndex : Int
  endIndex : Int
deriving DecidableEq

/-- detectChangedSections (lines 2922 to 2932): keep exactly the current
sections whose hash appears in no previous section. -/
def detectChangedSections (currentSections previousSections : List TextSection) :
    List TextSection :=
  currentSections.filter (fun s => !(previousSections.any (fun p => p.hash == s.hash)))

/-! ## Error surfacing of the remote analysis paths (source lines 622 to
631, 1010 to 1014 and 1192 to 1329) -/

/-- Outcome of the remote analysis call as seen by analyzeTextManual:
success, a non-2xx response (thrown at line 1231), a network failure of
the fetch itself, or an error field in the parsed payload (thrown at
line 1237). -/
inductive RemoteOutcome
  | ok
  | httpError
  | networkError
  | apiError
deriving DecidableEq

/-- Whether analyzeTextManual (lines 1192 to 1329) shows the destructive
Analysis failed toast for a given text and remote outcome.  Texts
shorter than 20 characters return before any network call (lines 1193
and 1202; getContextualWindow at line 316 returns the whole text, so the
two guards coincide); otherwise every failing outcome reaches the catch
block of line 1318, which shows the toast. -/
def analyzeTextManualShowsErrorToast (text : List Char) (outcome : RemoteOutcome) : Bool :=
  if text.length < 20 then false
  else
    match outcome with
    | .ok => false
    | _ => true

/-- analyzeOpenAIDelayed (lines 1010 to 1014), the function the
2-second debounce timer of handleContentEditable (lines 622 to 630)
invokes, simply awaits analyzeTextManual, so it surfaces errors exactly
as the manual path does. -/
def analyzeOpenAIDelayedShowsErrorToast (text : List Char) (outcome : RemoteOutcome) : Bool :=
  analyzeTextManualShowsErrorToast text outcome

/-! ## Auxiliary definitions and concrete values used by the claim
theorems -/

/-- Validity of a suggestion span against a text, as the specification
defines it for live suggestions: 0 ≤ start < stop ≤ length and the text
at the span reads back the original. -/
def validSpanFor (text : List Char) (s : Suggestion) : Prop :=
  0 ≤ s.position.start ∧ s.position.start < s.position.stop ∧
    s.position.stop ≤ (text.length : Int) ∧
    jsSubstring text s.position.start s.position.stop = s.original

instance (text : List Char) (s : Suggestion) : Decidable (validSpanFor text s) := by
  unfold validSpanFor
  infer_instance

/-- Shift both span bounds of a suggestion by k. -/
def shiftSuggestion (k : Int) (s : Suggestion) : Suggestion :=
  { s with position := ⟨s.position.start + k, s.position.stop + k⟩ }

/-- Concrete values for the counterexample to the universal span
invariant: one merge call whose incoming suggestion does not match the
current text at its span. -/
def c1Text : List Char := "abcdef".toList

def c1Incoming : Suggestion :=
  ⟨"typo-1".toList, ⟨0, 3⟩, "xyz".toList, "zzz".toList, none, none⟩

/-- Concrete values exhibiting the add-guard slip of the merge: the
existing set holds one semantic and one dictionary suggestion, and the
incoming dictionary suggestion overlaps both. -/
def c2Text : List Char := "abcdefgh".toList

def c2OpenAI : Suggestion :=
  ⟨"openai-1".toList, ⟨0, 3⟩, "abc".toList, "ABC".toList, none, none⟩

def c2TypoOld : Suggestion :=
  ⟨"typo-1".toList, ⟨4, 8⟩, "efgh".toList, "eeee".toList, none, none⟩

def c2TypoNew : Suggestion :=
  ⟨"typo-2".toList, ⟨2, 6⟩, "cdef".toList, "cccc".toList, none, none⟩

/-- Text of the two-occurrence scenario. -/
def c5Text : List Char := "I think you you should go.".toList

/-- Text of at least 20 characters for the remote failure scenarios. -/
def c9Text : List Char := "The quick brown fox jumps over it.".toList

/-! ## Sanity checks of the embedding on concrete values -/

example : jsSubstring "abcdef".toList 2 4 = "cd".toList := by decide
example : jsSubstring "abc".toList 5 1 = "bc".toList := by decide
example : jsSplitWs " a  b ".toList = ["".toList, "a".toList, "b".toList, "".toList] := by decide
example : jsOccurrences "aaa".toList "aa".toList = [0, 1] := by decide
example : simpleHash "".toList = ['0'] := by decide
example : computeChangeStart "abc".toList "abd".toList = 2 := by decide
example : computeChangeStart "abc".toList "abcd".toList = 3 := by decide

/-! ## Helper lemmas about the string primitives -/

theorem isPrefixOf_length_le : ∀ (a b : List Char), a.isPrefixOf b = true → a.length ≤ b.length := by
  intro a
  induction a with
  | nil => intro b _; simp
  | cons x xs ih =>
    intro b h
    cases b with
    | nil => simp [List.isPrefixOf] at h
    | cons y ys =>
      simp only [List.isPrefixOf, Bool.and_eq_true] at h
      have := ih ys h.2
      simp only [List.length_cons]
      omega

theorem isPrefixOf_take : ∀ (a b : List Char), a.isPrefixOf b = true → b.take a.length = a := by
  intro a
  induction a with
  | nil => intro b _; simp
  | cons x xs ih =>
    intro b h
    cases b with
    | nil => simp [List.isPrefixOf] at h
    | cons y ys =>
      simp only [List.isPrefixOf, Bool.and_eq_true, beq_iff_eq] at h
      simp [List.take, ih ys h.2, h.1]

theorem mem_of_mem_stableInsertBy {α : Type} (before : α → α → Bool) (x y : α) :
    ∀ (l : List α), y ∈ stableInsertBy before x l → y = x ∨ y ∈ l := by
  intro l
  induction l with
  | nil => intro h; simp [stableInsertBy] at h; exact Or.inl h
  | cons z zs ih =>
    intro h
    simp only [stableInsertBy] at h
    by_cases hb : before x z
    · simp [hb] at h
      rcases h with h | h | h
      · exact Or.inl h
      · exact Or.inr (by simp [h])
      · exact Or.inr (by simp [h])
    · simp [hb] at h
      rcases h with h | h
      · exact Or.inr (by simp [h])
      · rcases ih h with h2 | h2
        · exact Or.inl h2
        · exact Or.inr (by simp [h2])

theorem mem_of_mem_stableSortBy {α : Type} (before : α → α → Bool) (y : α) (l : List α)
    (h : y ∈ stableSortBy before l) : y ∈ l := by
  suffices H : ∀ (l acc : List α), y ∈ l.foldl (fun acc x => stableInsertBy before x acc) acc →
      y ∈ acc ∨ y ∈ l by
    rcases H l [] h with h2 | h2
    · simp at h2
    · exact h2
  intro l
  induction l with
  | nil => intro acc h2; exact Or.inl h2
  | cons z zs ih =>
    intro acc h2
    rcases ih (stableInsertBy before z acc) h2 with h3 | h3
    · rcases mem_of_mem_stableInsertBy before z y acc h3 with h4 | h4
      · exact Or.inr (by simp [h4])
      · exact Or.inl h4
    · exact Or.inr (by simp [h3])

theorem mem_of_head?_eq {α : Type} {l : List α} {x : α} (h : l.head? = some x) : x ∈ l := by
  cases l with
  | nil => simp at h
  | cons y ys => simp at h; simp [h]

theorem jsOccurrences_bound {text pat : List Char} {i : Nat} (hi : i ∈ jsOccurrences text pat) :
    i + pat.length ≤ text.length ∧ pat.isPrefixOf (text.drop i) = true := by
  unfold jsOccurrences at hi
  rcases List.mem_filter.1 hi with ⟨hr, hp⟩
  have hlen := isPrefixOf_length_le _ _ hp
  rw [List.length_drop] at hlen
  have := List.mem_range.1 hr
  exact ⟨by omega, hp⟩

theorem jsIncludes_length {a b : List Char} (h : jsIncludes a b = true) : b.length ≤ a.length := by
  unfold jsIncludes at h
  rcases List.exists_mem_of_ne_nil _ (by simpa [List.isEmpty_iff] using h) with ⟨i, hi⟩
  have := jsOccurrences_bound hi
  omega

theorem jsClamp_le (x : Int) (n : Nat) : jsClamp x n ≤ n := by
  unfold jsClamp; omega

theorem jsSubstring_length (s : List Char) (a b : Int) :
    (jsSubstring s a b).length =
      max (jsClamp a s.length) (jsClamp b s.length) - min (jsClamp a s.length) (jsClamp b s.length) := by
  unfold jsSubstring
  simp only [List.length_take, List.length_drop]
  have ha := jsClamp_le a s.length
  have hb := jsClamp_le b s.length
  omega

theorem jsSubstring_of_range (s : List Char) (a b : Int) (h0 : 0 ≤ a) (hab : a ≤ b)
    (hb : b ≤ (s.length : Int)) :
    jsSubstring s a b = (s.drop a.toNat).take (b.toNat - a.toNat) := by
  unfold jsSubstring jsClamp
  have h1 : (max 0 (min a (s.length : Int))).toNat = a.toNat := by omega
  have h2 : (max 0 (min b (s.length : Int))).toNat = b.toNat := by omega
  rw [h1, h2]
  have h3 : min a.toNat b.toNat = a.toNat := by omega
  have h4 : max a.toNat b.toNat = b.toNat := by omega
  show (s.drop (min a.toNat b.toNat)).take (max a.toNat b.toNat - min a.toNat b.toNat) =
    (s.drop a.toNat).take (b.toNat - a.toNat)
  rw [h3, h4]

/-! ## Helper lemmas about merging -/

theorem mergeStep_mem {acc : List Suggestion} {n s : Suggestion} (h : s ∈ mergeStep acc n) :
    s ∈ acc ∨ s = n := by
  simp only [mergeStep] at h
  split at h
  · rcases List.mem_append.1 h with h2 | h2
    · exact Or.inl (List.mem_filter.1 h2).1
    · simp at h2; exact Or.inr h2
  · exact Or.inl (List.mem_filter.1 h).1

theorem mergeLoop_mem : ∀ (inc acc : List Suggestion) (s : Suggestion),
    s ∈ mergeLoop acc inc → s ∈ acc ∨ s ∈ inc := by
  intro inc
  induction inc with
  | nil => intro acc s h; exact Or.inl h
  | cons n rest ih =>
    intro acc s h
    rcases ih (mergeStep acc n) s h with h2 | h2
    · rcases mergeStep_mem h2 with h3 | h3
      · exact Or.inl h3
      · exact Or.inr (by simp [h3])
    · exact Or.inr (by simp [h2])

theorem mergeSuggestionsIntelligently_mem {existing incoming : List Suggestion}
    {currentText : List Char} {s : Suggestion}
    (h : s ∈ mergeSuggestionsIntelligently existing incoming currentText) :
    (s ∈ existing ∧ jsSubstring currentText s.position.start s.position.stop = s.original) ∨
      s ∈ incoming := by
  unfold mergeSuggestionsIntelligently at h
  have h2 := mem_of_mem_stableSortBy _ _ _ h
  rcases mergeLoop_mem _ _ _ h2 with h3 | h3
  · rcases List.mem_filter.1 h3 with ⟨hmem, hpred⟩
    exact Or.inl ⟨hmem, by simpa using hpred⟩
  · exact Or.inr h3

/-! ## Helper lemmas about the locator -/

theorem findExactTextPosition_hint {text searchText : List Char} {a b : Int}
    (cb ca : Option (List Char)) (h0 : 0 ≤ a) (hab : a < b) (hb : b ≤ (text.length : Int))
    (hsub : jsSubstring text a b = searchText) :
    findExactTextPosition text searchText a b cb ca = ⟨a, b, true⟩ := by
  unfold findExactTextPosition
  rw [if_pos ⟨h0, hb, hab, hsub⟩]

theorem findWithContext_mem {text searchText : List Char} {cb ca : Option (List Char)}
    {m : ContextMatch} (hm : m ∈ findWithContext text searchText cb ca) :
    ∃ i ∈ jsOccurrences text searchText, m.start = (i : Int) ∧
      m.stop = (i : Int) + searchText.length := by
  unfold findWithContext at hm
  have h2 := mem_of_mem_stableSortBy _ _ _ hm
  rcases List.mem_filterMap.1 h2 with ⟨i, hi, hsome⟩
  refine ⟨i, hi, ?_⟩
  simp only [] at hsome
  rcases ite_eq_iff.1 hsome with ⟨_, h5⟩ | ⟨_, h5⟩
  · cases h5
    exact ⟨rfl, rfl⟩
  · cases h5

theorem closerToHint_foldl_mem (startPos : Int) :
    ∀ (l : List Span) (init : Span), l.foldl (closerToHint startPos) init ∈ init :: l := by
  intro l
  induction l with
  | nil => intro init; simp
  | cons q rest ih =>
    intro init
    have h2 := ih (closerToHint startPos init q)
    have h3 : closerToHint startPos init q = init ∨ closerToHint startPos init q = q := by
      unfold closerToHint
      split
      · exact Or.inr rfl
      · exact Or.inl rfl
    simp only [List.foldl_cons]
    rcases List.mem_cons.1 h2 with h4 | h4
    · rcases h3 with h5 | h5 <;> rw [h4, h5] <;> simp
    · simp [h4]

/-! ## Helper lemmas about insertions into the text -/

theorem length_insert_text (old ins : List Char) (p : Nat) (hp : p ≤ old.length) :
    (old.take p ++ ins ++ old.drop p).length = old.length + ins.length := by
  simp only [List.length_append, List.length_take, List.length_drop]
  omega

theorem take_insert_text (old ins : List Char) (p : Nat) (hp : p ≤ old.length) :
    (old.take p ++ ins ++ old.drop p).take p = old.take p := by
  have h1 : p ≤ (old.take p ++ ins).length := by
    simp only [List.length_append, List.length_take]; omega
  rw [List.take_append_of_le_length h1,
    List.take_append_of_le_length (by simp [List.length_take]; omega),
    List.take_take]
  simp

theorem drop_insert_text_ge (old ins : List Char) (p a : Nat) (hp : p ≤ old.length)
    (ha : p ≤ a) :
    (old.take p ++ ins ++ old.drop p).drop (a + ins.length) = old.drop a := by
  have h2 : a + ins.length = (old.take p ++ ins).length + (a - p) := by
    simp only [List.length_append, List.length_take]; omega
  rw [h2, List.drop_append, List.drop_drop]
  congr 1
  omega

theorem take_drop_congr {l₁ l₂ : List Char} {a c m : Nat} (h : l₁.take m = l₂.take m)
    (hm : a + c ≤ m) : (l₁.drop a).take c = (l₂.drop a).take c := by
  rw [List.take_drop, List.take_drop]
  have h1 : l₁.take (a + c) = l₂.take (a + c) := by
    have h2 := congrArg (List.take (a + c)) h
    simpa [List.take_take, Nat.min_eq_left hm] using h2
  rw [h1]

/-! ## Bounds of the fuzzy matcher -/

theorem fuzzySearchWords_gt_two {searchText w : List Char}
    (hw : w ∈ fuzzySearchWords searchText) : 2 < w.length := by
  unfold fuzzySearchWords at hw
  have := (List.mem_filter.1 hw).2
  simpa using this

theorem fuzzyCandidate_bounds {text searchText : List Char} {hintPos : Int} {i : Nat}
    {m : FuzzyMatch} (hne : (fuzzySearchWords searchText).isEmpty = false)
    (hm : fuzzyCandidate text searchText hintPos i = some m) :
    0 ≤ m.start ∧ m.start ≤ m.stop ∧ m.stop ≤ (text.length : Int) := by
  unfold fuzzyCandidate at hm
  simp only [] at hm
  split at hm
  case isFalse => cases hm
  case isTrue hth =>
    split at hm
    case h_2 => cases hm
    case h_1 sliceStart hhead =>
      cases hm
      -- the matched slice is nonempty: some search word of length above two occurs in it
      have hkpos : 0 < (fuzzySearchWords searchText).length :=
        List.length_pos.2 (List.isEmpty_eq_false.1 hne)
      set searchWindow := fuzzySearchWindow text hintPos with hswdef
      set windowSlice := jsJoinSpace (((jsSplitWs searchWindow).drop i).take
        ((fuzzySearchWords searchText).length * 2)) with hwsdef
      have hmw : 0 < ((fuzzySearchWords searchText).filter
          (fun w => jsIncludes windowSlice w)).length := by omega
      rcases List.exists_mem_of_ne_nil _ (List.length_pos.1 hmw) with ⟨w, hwmem⟩
      rcases List.mem_filter.1 hwmem with ⟨hwsw, hwinc⟩
      have hw2 := fuzzySearchWords_gt_two hwsw
      have hwlen := jsIncludes_length hwinc
      have hslice3 : 3 ≤ windowSlice.length := by omega
      have hocc := jsOccurrences_bound (mem_of_head?_eq hhead)
      -- window geometry
      set W := fuzzyWindowStart text hintPos with hWdef
      set WE := fuzzyWindowEnd text hintPos with hWEdef
      have hW0 : 0 ≤ W := by rw [hWdef]; unfold fuzzyWindowStart; omega
      have hswlen : searchWindow.length =
          max (jsClamp W text.length) (jsClamp WE text.length) -
            min (jsClamp W text.length) (jsClamp WE text.length) := by
        rw [hswdef]
        unfold fuzzySearchWindow
        rw [← hWdef, ← hWEdef, List.length_map, jsSubstring_length]
      have hia : ((jsClamp W text.length : Nat) : Int) = min W (text.length : Int) := by
        unfold jsClamp; omega
      have hib : ((jsClamp WE text.length : Nat) : Int) = max 0 (min WE (text.length : Int)) := by
        unfold jsClamp; omega
      have hab : jsClamp W text.length ≤ jsClamp WE text.length := by
        rw [hWdef, hWEdef]
        unfold jsClamp fuzzyWindowStart fuzzyWindowEnd
        omega
      refine ⟨?_, ?_, ?_⟩
      · show (0 : Int) ≤ W + (sliceStart : Int)
        omega
      · show W + (sliceStart : Int) ≤
          min (text.length : Int) (W + (sliceStart : Int) + 3 * (searchText.length : Int) / 2)
        have hdiv : 0 ≤ 3 * (searchText.length : Int) / 2 := by omega
        have hstart_le : W + (sliceStart : Int) ≤ (text.length : Int) := by omega
        omega
      · show min (text.length : Int) (W + (sliceStart : Int) + 3 * (searchText.length : Int) / 2) ≤
          (text.length : Int)
        omega

theorem findFuzzyMatches_bounds {text searchText : List Char} {hintPos : Int} {m : FuzzyMatch}
    (hm : m ∈ findFuzzyMatches text searchText hintPos) :
    0 ≤ m.start ∧ m.start ≤ m.stop ∧ m.stop ≤ (text.length : Int) := by
  unfold findFuzzyMatches at hm
  simp only [] at hm
  split at hm
  case isTrue => cases hm
  case isFalse hne =>
    have h2 := mem_of_mem_stableSortBy _ _ _ (List.mem_of_mem_take hm)
    rcases List.mem_filterMap.1 h2 with ⟨i, _, hsome⟩
    exact fuzzyCandidate_bounds (Bool.of_not_eq_true hne ▸ rfl) hsome

/-! ## Claim C6 -/

/-- C6: for every text, original and hint span satisfying
0 ≤ hintStart < hintEnd ≤ length of text whose hinted slice equals the
original, the locator returns exactly the hint span with found set to
true, for every choice of context arguments and independently of any
other occurrence of the original in the text (the hint verification of
lines 1346 to 1354 returns before any search happens). -/
theorem C6_hint_verification (text original : List Char) (hintStart hintEnd : Int)
    (contextBefore contextAfter : Option (List Char))
    (h0 : 0 ≤ hintStart) (hlt : hintStart < hintEnd) (hle : hintEnd ≤ (text.length : Int))
    (hsub : jsSubstring text hintStart hintEnd = original) :
    findExactTextPosition text original hintStart hintEnd contextBefore contextAfter =
      ⟨hintStart, hintEnd, true⟩ :=
  findExactTextPosition_hint contextBefore contextAfter h0 hlt hle hsub

/-- Witness for C6 at a concrete input: text abcdef, original cd, hint
span 2 to 4, with context arguments supplied and a second occurrence
appended; the locator returns the hint span unchanged. -/
theorem C6_hint_verification_witness :
    (0 : Int) ≤ 2 ∧ (2 : Int) < 4 ∧ (4 : Int) ≤ (("abcdefcd".toList).length : Int) ∧
      jsSubstring "abcdefcd".toList 2 4 = "cd".toList ∧
      findExactTextPosition "abcdefcd".toList "cd".toList 2 4 (some "zz".toList) none =
        ⟨2, 4, true⟩ :=
  ⟨by decide, by decide, by decide, by decide,
    C6_hint_verification "abcdefcd".toList "cd".toList 2 4 (some "zz".toList) none
      (by decide) (by decide) (by decide) (by decide)⟩

/-! ## Claim C7 -/

/-- C7: when the hint span does not verify, the original occurs nowhere
in the text, and the fuzzy fallback produces no candidate, the locator
returns found set to false with the supplied hint span unchanged (line
1402); and the repositioner treats such a result by dropping the
suggestion (returning none, line 1588), never by using the span. -/
theorem C7_not_found (text original : List Char) (hintStart hintEnd : Int)
    (contextBefore contextAfter : Option (List Char))
    (hhint : ¬ (0 ≤ hintStart ∧ hintEnd ≤ (text.length : Int) ∧ hintStart < hintEnd ∧
      jsSubstring text hintStart hintEnd = original))
    (hocc : jsOccurrences text original = [])
    (hfuzzy : findFuzzyMatches text original hintStart = []) :
    findExactTextPosition text original hintStart hintEnd contextBefore contextAfter =
      ⟨hintStart, hintEnd, false⟩ ∧
    (∀ s : Suggestion, s.original = original → s.position = ⟨hintStart, hintEnd⟩ →
      s.contextBefore = contextBefore → s.contextAfter = contextAfter →
      relocateSuggestion text s = none) := by
  have hmain : findExactTextPosition text original hintStart hintEnd contextBefore contextAfter =
      ⟨hintStart, hintEnd, false⟩ := by
    unfold findExactTextPosition
    rw [if_neg hhint]
    have hctx : findWithContext text original contextBefore contextAfter = [] := by
      unfold findWithContext
      rw [hocc]
      rfl
    have hctx2 : (if isTruthyStr contextBefore || isTruthyStr contextAfter then
        findWithContext text original contextBefore contextAfter else []) = [] := by
      split
      · exact hctx
      · rfl
    rw [hctx2, hocc, hfuzzy]
    rfl
  refine ⟨hmain, ?_⟩
  intro s hso hsp hscb hsca
  unfold relocateSuggestion
  rw [hso, hsp]
  show (if (findExactTextPosition text original hintStart hintEnd
      s.contextBefore s.contextAfter).found = true then _ else none) = none
  rw [hscb, hsca, hmain]
  rfl

/-- Witness for C7 at a concrete input: text abc, original zzz, hint
span 0 to 2; nothing matches and the locator returns the hint span with
found set to false, and the repositioner drops a suggestion carrying
those fields. -/
theorem C7_not_found_witness :
    (¬ (0 ≤ (0 : Int) ∧ (2 : Int) ≤ (("abc".toList).length : Int) ∧ (0 : Int) < 2 ∧
        jsSubstring "abc".toList 0 2 = "zzz".toList)) ∧
      jsOccurrences "abc".toList "zzz".toList = [] ∧
      findFuzzyMatches "abc".toList "zzz".toList 0 = [] ∧
      findExactTextPosition "abc".toList "zzz".toList 0 2 none none = ⟨0, 2, false⟩ ∧
      relocateSuggestion "abc".toList
        ⟨"typo-9".toList, ⟨0, 2⟩, "zzz".toList, "zz".toList, none, none⟩ = none := by
  have h := C7_not_found "abc".toList "zzz".toList 0 2 none none
    (by decide) (by decide) (by decide)
  exact ⟨by decide, by decide, by decide, h.1,
    h.2 ⟨"typo-9".toList, ⟨0, 2⟩, "zzz".toList, "zz".toList, none, none⟩ rfl rfl rfl rfl⟩

/-! ## Claim C10 -/

theorem locateResult_bounds (text original : List Char) (startPos endPos : Int)
    (cb ca : Option (List Char)) (r : LocateResult)
    (hr : findExactTextPosition text original startPos endPos cb ca = r)
    (hfound : r.found = true) :
    0 ≤ r.start ∧ r.start ≤ r.stop ∧ r.stop ≤ (text.length : Int) := by
  unfold findExactTextPosition at hr
  split at hr
  case isTrue h =>
    cases hr
    exact ⟨h.1, le_of_lt h.2.2.1, h.2.1⟩
  case isFalse h =>
    simp only [] at hr
    split at hr
    case h_1 m tail heq =>
      cases hr
      have hmem : m ∈ findWithContext text original cb ca := by
        rcases ite_eq_iff.1 heq with ⟨_, h2⟩ | ⟨_, h2⟩
        · rw [h2]; exact List.mem_cons_self m tail
        · cases h2
      rcases findWithContext_mem hmem with ⟨i, hi, hstart, hstop⟩
      have hb := jsOccurrences_bound hi
      refine ⟨?_, ?_, ?_⟩
      · show (0 : Int) ≤ m.start
        omega
      · show m.start ≤ m.stop
        omega
      · show m.stop ≤ (text.length : Int)
        omega
    case h_2 heq =>
      split at hr
      case h_1 heq2 =>
        split at hr
        case h_1 m tail heq3 =>
          cases hr
          have hmem : m ∈ findFuzzyMatches text original startPos := by
            rw [heq3]; exact List.mem_cons_self m tail
          exact findFuzzyMatches_bounds hmem
        case h_2 heq3 =>
          cases hr
          simp at hfound
      case h_2 p heq2 =>
        cases hr
        have hmem : p ∈ (jsOccurrences text original).map
            (fun (i : Nat) => (⟨(i : Int), (i : Int) + original.length⟩ : Span)) := by
          rw [heq2]; exact List.mem_cons_self p []
        rcases List.mem_map.1 hmem with ⟨i, hi, hp⟩
        have hb := jsOccurrences_bound hi
        have hps : p.start = (i : Int) := by rw [← hp]
        have hpe : p.stop = (i : Int) + original.length := by rw [← hp]
        refine ⟨?_, ?_, ?_⟩
        · show (0 : Int) ≤ p.start
          omega
        · show p.start ≤ p.stop
          omega
        · show p.stop ≤ (text.length : Int)
          omega
      case h_3 p q rest heq2 =>
        cases hr
        have hclosest := closerToHint_foldl_mem startPos (q :: rest) p
        have hmem : (q :: rest).foldl (closerToHint startPos) p ∈
            (jsOccurrences text original).map
              (fun (i : Nat) => (⟨(i : Int), (i : Int) + original.length⟩ : Span)) := by
          rw [heq2]; exact hclosest
        rcases List.mem_map.1 hmem with ⟨i, hi, hp⟩
        have hb := jsOccurrences_bound hi
        have hps : ((q :: rest).foldl (closerToHint startPos) p).start = (i : Int) := by
          rw [← hp]
        have hpe : ((q :: rest).foldl (closerToHint startPos) p).stop =
            (i : Int) + original.length := by
          rw [← hp]
        refine ⟨?_, ?_, ?_⟩
        · show (0 : Int) ≤ ((q :: rest).foldl (closerToHint startPos) p).start
          omega
        · show ((q :: rest).foldl (closerToHint startPos) p).start ≤
            ((q :: rest).foldl (closerToHint startPos) p).stop
          omega
        · show ((q :: rest).foldl (closerToHint startPos) p).stop ≤ (text.length : Int)
          omega

/-- C10: for every input, whenever the locator reports found, the
returned span satisfies 0 ≤ start ≤ stop ≤ length of the text, so
substring-indexing the current text with it stays in bounds; this covers
the spans produced by the fuzzy fallback, whose stop offset is clamped
to the text length.  The empty original is excluded because on it the
source never returns (its occurrence collection loop does not
terminate). -/
theorem C10_locator_in_bounds (text original : List Char) (startPos endPos : Int)
    (contextBefore contextAfter : Option (List Char)) (hne : original ≠ [])
    (hfound : (findExactTextPosition text original startPos endPos
      contextBefore contextAfter).found = true) :
    0 ≤ (findExactTextPosition text original startPos endPos contextBefore contextAfter).start ∧
    (findExactTextPosition text original startPos endPos contextBefore contextAfter).start ≤
      (findExactTextPosition text original startPos endPos contextBefore contextAfter).stop ∧
    (findExactTextPosition text original startPos endPos contextBefore contextAfter).stop ≤
      (text.length : Int) :=
  locateResult_bounds text original startPos endPos contextBefore contextAfter _ rfl hfound

/-- Witness for C10 at a concrete input: original ab relocated in text
xabx from a wrong hint; the locator reports found and the returned span
lies inside the text. -/
theorem C10_locator_in_bounds_witness :
    ("ab".toList ≠ ([] : List Char)) ∧
      (findExactTextPosition "xabx".toList "ab".toList 0 2 none none).found = true ∧
      (0 ≤ (findExactTextPosition "xabx".toList "ab".toList 0 2 none none).start ∧
        (findExactTextPosition "xabx".toList "ab".toList 0 2 none none).start ≤
          (findExactTextPosition "xabx".toList "ab".toList 0 2 none none).stop ∧
        (findExactTextPosition "xabx".toList "ab".toList 0 2 none none).stop ≤
          (("xabx".toList).length : Int)) :=
  ⟨by decide, by decide,
    C10_locator_in_bounds "xabx".toList "ab".toList 0 2 none none (by decide) (by decide)⟩

/-! ## Claim C1 -/

/-- Counterexample to C1 as stated: a single merge operation (with no
existing suggestions) can leave a surviving suggestion whose span does
not read back its original text, because the merge validates only the
existing suggestions (lines 766 to 779) and inserts incoming
suggestions unvalidated. -/
theorem C1_counterexample :
    c1Incoming ∈ mergeSuggestionsIntelligently [] [c1Incoming] c1Text ∧
      ¬ spanInvariant c1Text c1Incoming := by
  constructor
  · decide
  · decide

/-- C1 (amended): after a merge, every surviving suggestion other than
the just-inserted incoming ones satisfies the span invariant against the
current text (the revalidation filter of lines 766 to 779 removes every
existing suggestion violating it); incoming suggestions enter the set
unvalidated. -/
theorem C1_merge_span_invariant (existing incoming : List Suggestion) (currentText : List Char)
    (s : Suggestion) (hs : s ∈ mergeSuggestionsIntelligently existing incoming currentText)
    (hnot : s ∉ incoming) : spanInvariant currentText s := by
  rcases mergeSuggestionsIntelligently_mem hs with ⟨_, hvalid⟩ | hinc
  · exact hvalid
  · exact absurd hinc hnot

/-- Witness for C1 at a concrete input: a validated existing suggestion
survives a merge with no incoming ones and satisfies the invariant. -/
theorem C1_merge_span_invariant_witness :
    (⟨"openai-1".toList, ⟨0, 3⟩, "abc".toList, "xyz".toList, none, none⟩ : Suggestion) ∈
        mergeSuggestionsIntelligently
          [⟨"openai-1".toList, ⟨0, 3⟩, "abc".toList, "xyz".toList, none, none⟩] [] c1Text ∧
      (⟨"openai-1".toList, ⟨0, 3⟩, "abc".toList, "xyz".toList, none, none⟩ : Suggestion) ∉
        ([] : List Suggestion) ∧
      spanInvariant c1Text
        ⟨"openai-1".toList, ⟨0, 3⟩, "abc".toList, "xyz".toList, none, none⟩ :=
  ⟨by decide, by decide,
    C1_merge_span_invariant
      [⟨"openai-1".toList, ⟨0, 3⟩, "abc".toList, "xyz".toList, none, none⟩] [] c1Text
      ⟨"openai-1".toList, ⟨0, 3⟩, "abc".toList, "xyz".toList, none, none⟩
      (by decide) (by decide)⟩

/-! ## Claim C2 -/

/-- C2: evaluation of the merge at the failing input.  The incoming
dictionary suggestion overlaps the existing semantic suggestion, yet the
returned set contains it, because it also displaced the overlapping
older dictionary suggestion and the add guard of line 840 then
short-circuits past the semantic block: the result keeps both the
semantic suggestion and the incoming dictionary one, contradicting the
claim (and the comment at line 839 of the source) that an incoming
dictionary suggestion overlapping a semantic one is dropped entirely. -/
theorem C2_dictionary_not_dropped :
    mergeSuggestionsIntelligently [c2OpenAI, c2TypoOld] [c2TypoNew] c2Text =
        [c2OpenAI, c2TypoNew] ∧
      getSuggestionSource c2TypoNew = .typo ∧
      getSuggestionSource c2OpenAI = .openai ∧
      spansOverlap c2TypoNew.position c2OpenAI.position = true ∧
      spanInvariant c2Text c2OpenAI ∧ spanInvariant c2Text c2TypoOld := by
  refine ⟨by decide, by decide, by decide, by decide, by decide, by decide⟩

/-! ## Claim C4 -/

/-- C4: evaluation of the changeStart computation at the failing input.
With old text abc and new text xbc the first disagreement is at index 0,
but the fallback of lines 577 to 580 cannot distinguish a first
difference at index 0 from no difference at all and returns the common
length 3 instead of 0; the prefix property of the claim fails there as
well. -/
theorem C4_changeStart_misfires_at_zero :
    computeChangeStart "abc".toList "xbc".toList = 3 ∧
      firstDiffIndex "abc".toList "xbc".toList = some 0 ∧
      ("abc".toList).take 3 ≠ ("xbc".toList).take 3 ∧
      (("xbc".toList).length : Int) - (("abc".toList).length : Int) = 0 := by
  refine ⟨by decide, by decide, by decide, by decide⟩

/-! ## Claim C5 -/

/-- Counterexample to C5 as stated: with the stale hint span 13 to 16,
the locator does not return the span 13 to 16 of the claim. -/
theorem C5_counterexample :
    findExactTextPosition c5Text "you".toList 13 16
        (some "think".toList) (some "should".toList) ≠ ⟨13, 16, true⟩ := by
  decide

/-- C5 (amended): on this text the occurrences of you are at offsets 8
and 12 (not 9 and 13), the context windows of about context length plus
ten characters let both context strings match around both occurrences,
so both occurrences score 5 and the context search returns the first
one: the locator yields the span 8 to 11. -/
theorem C5_context_search_returns_first :
    findExactTextPosition c5Text "you".toList 13 16
        (some "think".toList) (some "should".toList) = ⟨8, 11, true⟩ ∧
      jsOccurrences c5Text "you".toList = [8, 12] := by
  refine ⟨by decide, by decide⟩

/-! ## Claim C9 -/

/-- Counterexample to C9 as stated: a network failure of the remote call
on the automatic 2-second debounced path does show the user-visible
Analysis failed toast, because analyzeOpenAIDelayed (lines 1010 to 1014)
delegates to analyzeTextManual, whose catch block (lines 1318 to 1325)
shows the toast; the failure is not silent. -/
theorem C9_counterexample :
    analyzeOpenAIDelayedShowsErrorToast c9Text .networkError = true := by
  decide

/-- C9 (amended): a remote failure is surfaced as the Analysis failed
toast both on the manual analyze action and on the automatic 2-second
debounced path, for every failing outcome on every text long enough to
reach the network call, because the debounced path runs the same
analyzeTextManual function. -/
theorem C9_failures_surface_on_both_paths (text : List Char) (outcome : RemoteOutcome)
    (hlen : 20 ≤ text.length) (hfail : outcome ≠ .ok) :
    analyzeOpenAIDelayedShowsErrorToast text outcome = true ∧
      analyzeOpenAIDelayedShowsErrorToast text outcome =
        analyzeTextManualShowsErrorToast text outcome := by
  unfold analyzeOpenAIDelayedShowsErrorToast analyzeTextManualShowsErrorToast
  rw [if_neg (by omega)]
  cases outcome
  · exact absurd rfl hfail
  · exact ⟨rfl, rfl⟩
  · exact ⟨rfl, rfl⟩
  · exact ⟨rfl, rfl⟩

/-- Witness for C9 at a concrete input: an HTTP failure on a long
text surfaces the toast on the debounced path as well. -/
theorem C9_failures_surface_on_both_paths_witness :
    20 ≤ ("The quick brown fox jumps over it.".toList).length ∧
      (RemoteOutcome.httpError ≠ RemoteOutcome.ok) ∧
      analyzeOpenAIDelayedShowsErrorToast "The quick brown fox jumps over it.".toList
          .httpError = true :=
  ⟨by decide, by decide,
    (C9_failures_surface_on_both_paths "The quick brown fox jumps over it.".toList .httpError
      (by decide) (by decide)).1⟩

/-! ## Claim C8 -/

/-- C8: detectChangedSections marks a current section as changed exactly
when no previous section carries an identical hash (lines 2928 to 2931);
and since the hash is the deterministic simpleHash of the trimmed
content (as the splitter computes it at lines 2856, 2878 and 2895, the
well-formedness hypothesis below), a section whose trimmed content also
occurred in the previous partition is never marked changed. -/
theorem C8_section_change_detection (currentSections previousSections : List TextSection)
    (hprev : ∀ p ∈ previousSections, p.hash = simpleHash (jsTrim p.content)) :
    (∀ s : TextSection, s ∈ detectChangedSections currentSections previousSections ↔
      (s ∈ currentSections ∧ ∀ p ∈ previousSections, p.hash ≠ s.hash)) ∧
    (∀ s ∈ currentSections, s.hash = simpleHash (jsTrim s.content) →
      (∃ p ∈ previousSections, jsTrim p.content = jsTrim s.content) →
      s ∉ detectChangedSections currentSections previousSections) := by
  have hiff : ∀ s : TextSection, s ∈ detectChangedSections currentSections previousSections ↔
      (s ∈ currentSections ∧ ∀ p ∈ previousSections, p.hash ≠ s.hash) := by
    intro s
    unfold detectChangedSections
    rw [List.mem_filter]
    simp only [Bool.not_eq_true', List.any_eq_false, beq_iff_eq]
  refine ⟨hiff, ?_⟩
  rintro s hs hhash ⟨p, hp, htrim⟩ hchanged
  have hne := ((hiff s).1 hchanged).2 p hp
  apply hne
  rw [hprev p hp, htrim, ← hhash]

/-- Witness for C8 at a concrete input: a section whose trimmed content
already occurred in the previous partition (at a different document
position) is not reported as changed. -/
theorem C8_section_change_detection_witness :
    (∀ p ∈ [(⟨simpleHash (jsTrim "abc".toList), "abc".toList, 0, 3⟩ : TextSection)],
        p.hash = simpleHash (jsTrim p.content)) ∧
      (⟨simpleHash (jsTrim "abc".toList), "abc".toList, 10, 13⟩ : TextSection) ∉
        detectChangedSections
          [⟨simpleHash (jsTrim "abc".toList), "abc".toList, 10, 13⟩]
          [⟨simpleHash (jsTrim "abc".toList), "abc".toList, 0, 3⟩] :=
  ⟨by decide,
    (C8_section_change_detection
        [⟨simpleHash (jsTrim "abc".toList), "abc".toList, 10, 13⟩]
        [⟨simpleHash (jsTrim "abc".toList), "abc".toList, 0, 3⟩]
        (by decide)).2
      ⟨simpleHash (jsTrim "abc".toList), "abc".toList, 10, 13⟩
      (by decide) (by decide) (by decide)⟩

/-! ## Claim C3 -/

theorem relocateSuggestion_verified {newText : List Char} {s : Suggestion}
    (h0 : 0 ≤ s.position.start) (hab : s.position.start < s.position.stop)
    (hb : s.position.stop ≤ (newText.length : Int))
    (hsub : jsSubstring newText s.position.start s.position.stop = s.original) :
    relocateSuggestion newText s = some s := by
  unfold relocateSuggestion
  rw [findExactTextPosition_hint s.contextBefore s.contextAfter h0 hab hb hsub]
  simp

/-- C3: on a set of suggestions whose spans are valid against the old
text, repositioning for an edit that inserts the characters ins at
offset p (with changeStart supplied as p) shifts every suggestion whose
span start is at least p by exactly the insertion length, keeps every
suggestion whose span stop is at most p unchanged, and drops every
suggestion whose span strictly contains p; the verification pass of
phase two confirms every survivor at its computed span and changes
nothing. -/
theorem C3_reposition_pure_insertion (suggestions : List Suggestion) (oldText ins : List Char)
    (p : Nat) (hp : p ≤ oldText.length)
    (hval : ∀ s ∈ suggestions, validSpanFor oldText s) :
    updateSuggestionPositions suggestions oldText (oldText.take p ++ ins ++ oldText.drop p)
        (p : Int) =
      suggestions.filterMap (fun s =>
        if (p : Int) ≤ s.position.start then some (shiftSuggestion (ins.length : Int) s)
        else if s.position.stop ≤ (p : Int) then some s
        else none) := by
  have hlenN : (oldText.take p ++ ins ++ oldText.drop p).length = oldText.length + ins.length :=
    length_insert_text oldText ins p hp
  have hΔ : ((oldText.take p ++ ins ++ oldText.drop p).length : Int) - (oldText.length : Int) =
      (ins.length : Int) := by
    rw [hlenN]; push_cast; ring
  unfold updateSuggestionPositions
  split
  case isTrue hemp =>
    rw [List.isEmpty_iff.1 hemp]
    rfl
  case isFalse hemp =>
    rw [List.filterMap_filterMap]
    apply List.filterMap_congr
    intro s hs
    obtain ⟨h0, hlt, hle, hsub⟩ := hval s hs
    have ha : ((s.position.start.toNat : Nat) : Int) = s.position.start :=
      Int.toNat_of_nonneg h0
    have hb2 : ((s.position.stop.toNat : Nat) : Int) = s.position.stop :=
      Int.toNat_of_nonneg (by omega)
    have hsubN : jsSubstring oldText s.position.start s.position.stop =
        (oldText.drop s.position.start.toNat).take
          (s.position.stop.toNat - s.position.start.toNat) :=
      jsSubstring_of_range oldText _ _ h0 (le_of_lt hlt) hle
    show ((if (p : Int) ≤ s.position.start then
          some { s with position := ⟨s.position.start +
            (((oldText.take p ++ ins ++ oldText.drop p).length : Int) - (oldText.length : Int)),
            s.position.stop +
            (((oldText.take p ++ ins ++ oldText.drop p).length : Int) - (oldText.length : Int))⟩ }
        else if (p : Int) < s.position.stop then none
        else some s).bind (relocateSuggestion (oldText.take p ++ ins ++ oldText.drop p))) = _
    rw [hΔ]
    by_cases hshift : (p : Int) ≤ s.position.start
    · rw [if_pos hshift, if_pos hshift, Option.some_bind]
      have hstartN : (s.position.start + (ins.length : Int)).toNat =
          s.position.start.toNat + ins.length := by omega
      have hstopN : (s.position.stop + (ins.length : Int)).toNat =
          s.position.stop.toNat + ins.length := by omega
      have hpa : p ≤ s.position.start.toNat := by omega
      have hsub2 : jsSubstring (oldText.take p ++ ins ++ oldText.drop p)
          (s.position.start + (ins.length : Int)) (s.position.stop + (ins.length : Int)) =
          s.original := by
        rw [jsSubstring_of_range _ _ _ (by omega) (by omega) (by rw [hlenN]; push_cast; omega)]
        rw [hstartN, hstopN]
        rw [drop_insert_text_ge oldText ins p s.position.start.toNat hp hpa]
        rw [← hsub, hsubN]
        congr 1
        omega
      have hreloc := relocateSuggestion_verified (s := { s with position :=
          ⟨s.position.start + (ins.length : Int), s.position.stop + (ins.length : Int)⟩ })
        (by show 0 ≤ s.position.start + (ins.length : Int); omega)
        (by show s.position.start + (ins.length : Int) < s.position.stop + (ins.length : Int)
            omega)
        (by show s.position.stop + (ins.length : Int) ≤
              ((oldText.take p ++ ins ++ oldText.drop p).length : Int)
            rw [hlenN]; push_cast; omega)
        (hsub2)
      rw [hreloc]
      rfl
    · rw [if_neg hshift, if_neg hshift]
      by_cases hkeep : s.position.stop ≤ (p : Int)
      · rw [if_neg (by omega), if_pos hkeep, Option.some_bind]
        have hsub3 : jsSubstring (oldText.take p ++ ins ++ oldText.drop p)
            s.position.start s.position.stop = s.original := by
          rw [jsSubstring_of_range _ _ _ h0 (le_of_lt hlt) (by rw [hlenN]; push_cast; omega)]
          rw [← hsub, hsubN]
          exact take_drop_congr
            (by rw [take_insert_text oldText ins p hp])
            (by omega)
        exact relocateSuggestion_verified h0 hlt
          (by rw [hlenN]; push_cast; omega) hsub3
      · rw [if_pos (by omega), if_neg hkeep]
        rfl

/-- Witness for C3 at a concrete input: text hello world. with XY
inserted at offset 5; the suggestion before the edit stays, the one
after it shifts by two, and the one straddling the edit point is
dropped. -/
theorem C3_reposition_pure_insertion_witness :
    5 ≤ ("hello world.".toList).length ∧
      (∀ s ∈ [(⟨"typo-1".toList, ⟨0, 5⟩, "hello".toList, "jello".toList, none, none⟩ : Suggestion),
          ⟨"openai-1".toList, ⟨6, 11⟩, "world".toList, "earth".toList, none, none⟩,
          ⟨"typo-2".toList, ⟨3, 8⟩, "lo wo".toList, "xx".toList, none, none⟩],
        validSpanFor "hello world.".toList s) ∧
      updateSuggestionPositions
          [⟨"typo-1".toList, ⟨0, 5⟩, "hello".toList, "jello".toList, none, none⟩,
            ⟨"openai-1".toList, ⟨6, 11⟩, "world".toList, "earth".toList, none, none⟩,
            ⟨"typo-2".toList, ⟨3, 8⟩, "lo wo".toList, "xx".toList, none, none⟩]
          "hello world.".toList
          (("hello world.".toList).take 5 ++ "XY".toList ++ ("hello world.".toList).drop 5)
          (5 : Int) =
        [⟨"typo-1".toList, ⟨0, 5⟩, "hello".toList, "jello".toList, none, none⟩,
          ⟨"openai-1".toList, ⟨6, 11⟩, "world".toList, "earth".toList, none, none⟩,
          ⟨"typo-2".toList, ⟨3, 8⟩, "lo wo".toList, "xx".toList, none, none⟩].filterMap
          (fun s =>
            if ((5 : Nat) : Int) ≤ s.position.start
            then some (shiftSuggestion (("XY".toList).length : Int) s)
            else if s.position.stop ≤ ((5 : Nat) : Int) then some s
            else none) :=
  ⟨by decide, by decide,
    C3_reposition_pure_insertion
      [⟨"typo-1".toList, ⟨0, 5⟩, "hello".toList, "jello".toList, none, none⟩,
        ⟨"openai-1".toList, ⟨6, 11⟩, "world".toList, "earth".toList, none, none⟩,
        ⟨"typo-2".toList, ⟨3, 8⟩, "lo wo".toList, "xx".toList, none, none⟩]
      "hello world.".toList "XY".toList 5 (by decide) (by decide)⟩
